import Mathlib

/-!
Verification development for the argon-core deployment orchestrator
(`src/cli/cli.ts`): the migration engine of the `bolt migrate` command
(lines 426-618) and the deployment server of the `deploy` command
(lines 713-1285), shallowly embedded as pure Lean functions.

Conventions of the embedding:
* strings are `List Char` (`Str`), so that every definition evaluates
  inside the kernel; JavaScript string methods (`split`, `endsWith`,
  `startsWith`, `includes`, `slice`) are embedded as the explicit
  recursions below, and `localeCompare` ordering is modelled as the
  lexicographic order on `List Char`;
* the filesystem is an explicit parameter (a `List Str` of discovered
  file paths for the migration scan; a `Str → Option Str` mapping a path
  to the contents of an existing regular file for the static server;
  a `Str → Bool` for bare existence checks);
* the SQLite `migrations` table is a `List LedgerEntry` (its PRIMARY KEY
  uniqueness appears as a `Nodup` hypothesis on the id column);
* executing a migration module's `up(db)` is abstracted by a success
  predicate `upOk : Str → Bool` on unit ids (a `false` result models the
  `up` call throwing, which the code turns into `process.exit(1)`);
* `new Date().toISOString()` is an explicit `Str` argument.
-/

/-- Strings of the embedding: JavaScript strings as lists of characters. -/
abbrev Str := List Char

/-- Embeds `s.split(sep)` for a one-character separator (the code only
splits on `'_'` and `'/'`).  Like in JavaScript, the result is never
empty and keeps empty fragments. -/
def splitOnChar (sep : Char) : Str → List Str
  | [] => [[]]
  | c :: rest =>
    match splitOnChar sep rest with
    | [] => [[c]]
    | h :: t => if c = sep then [] :: h :: t else (c :: h) :: t

/-- Embeds `s.endsWith(suffix)`. -/
def strEndsWith (s suffix : Str) : Bool :=
  suffix.length ≤ s.length && s.drop (s.length - suffix.length) == suffix

/-- Embeds `s.startsWith(other)`. -/
def strStartsWith (s other : Str) : Bool :=
  s.take other.length == other

/-! ## Migration engine: data model (cli.ts lines 426-618) -/

/-- One row of the `migrations` ledger table, created by
`CREATE TABLE IF NOT EXISTS migrations (id TEXT PRIMARY KEY, name TEXT NOT
NULL, executed_at TEXT NOT NULL)` (cli.ts lines 532-539). -/
structure LedgerEntry where
  id : Str
  name : Str
  executed_at : Str
deriving DecidableEq, Repr

/-- One discovered migration unit, as built by the `.map` in cli.ts lines
548-560: `id` is the filename up to the first underscore, `name` the rest
with the `.ts` suffix removed, `applied` whether `id` is in the ledger. -/
structure MigrationRecord where
  id : Str
  name : Str
  path : Str
  applied : Bool
deriving DecidableEq, Repr

/-- Embeds `file.split('/').pop() || ''` (cli.ts line 549): the final
path component of a discovered file. -/
def fileBase (file : Str) : Str :=
  (splitOnChar '/' file).getLastD []

/-- Embeds `filename.split('_')[0]` (cli.ts line 550): the unit id parsed
from a migration filename. -/
def fileId (filename : Str) : Str :=
  (splitOnChar '_' filename).headD []

/-- Embeds `filename.replace(/\.ts$/, '')` (cli.ts line 551). -/
def stripTsSuffix (filename : Str) : Str :=
  if strEndsWith filename ".ts".toList then filename.take (filename.length - 3)
  else filename

/-- Embeds `filename.replace(/\.ts$/, '').split('_').slice(1).join('_')`
(cli.ts line 551): the human name parsed from a migration filename. -/
def migLabel (filename : Str) : Str :=
  List.intercalate "_".toList ((splitOnChar '_' (stripTsSuffix filename)).tail)

/-- The record built for one discovered file (cli.ts lines 548-560);
`applied` mirrors `appliedIds.has(id)`. -/
def parseRecord (appliedIds : List Str) (file : Str) : MigrationRecord :=
  { id := fileId (fileBase file)
    name := migLabel (fileBase file)
    path := file
    applied := appliedIds.contains (fileId (fileBase file)) }

/-- Comparator of the `.sort((a, b) => a.id.localeCompare(b.id))` at
cli.ts line 561, modelled as lexicographic order on the id strings. -/
def migLe (a b : MigrationRecord) : Prop := a.id ≤ b.id

instance : DecidableRel migLe := fun a b => inferInstanceAs (Decidable (a.id ≤ b.id))

instance : IsTotal MigrationRecord migLe := ⟨fun a b => le_total a.id b.id⟩

instance : IsTrans MigrationRecord migLe := ⟨fun _ _ _ h₁ h₂ => le_trans h₁ h₂⟩

/-- Embeds cli.ts lines 546-561: filter the scanned files to `.ts` files,
parse each into a record, and sort by id ascending (JavaScript's `sort`
is stable, as is `List.insertionSort`). -/
def parseMigrations (files : List Str) (appliedIds : List Str) : List MigrationRecord :=
  List.insertionSort migLe
    ((files.filter (fun f => strEndsWith f ".ts".toList)).map (parseRecord appliedIds))

/-- Embeds cli.ts lines 563-566: under `--force` run every discovered
unit, otherwise only those not yet in the ledger. -/
def migrationsToRun (force : Bool) (files : List Str) (appliedIds : List Str) :
    List MigrationRecord :=
  let records := parseMigrations files appliedIds
  if force then records else records.filter (fun m => !m.applied)

/-- Observable outcome of one `bolt migrate --run` invocation:
`executed` lists (in order) the ids of units whose `up` was invoked,
`ledger` is the final ledger table, `exitCode` the process exit status,
and `failedId` the unit named in the error message, if any. -/
structure RunResult where
  executed : List Str
  ledger : List LedgerEntry
  exitCode : Nat
  failedId : Option Str
deriving DecidableEq, Repr

/-- Embeds the `for (const migration of migrationsToRun)` loop of cli.ts
lines 576-610: run each unit's `up` in sequence; on success insert a
ledger row unless the unit was already applied (the `if (!migration.applied)`
at line 595); on a thrown error exit with code 1 naming the unit
(lines 603-606), leaving the remaining units unattempted. -/
def runSeq (upOk : Str → Bool) (now : Str) :
    List MigrationRecord → List LedgerEntry → RunResult
  | [], ledger => ⟨[], ledger, 0, none⟩
  | m :: rest, ledger =>
    if upOk m.id then
      let ledger' := if m.applied then ledger else ledger ++ [⟨m.id, m.name, now⟩]
      let r := runSeq upOk now rest ledger'
      ⟨m.id :: r.executed, r.ledger, r.exitCode, r.failedId⟩
    else
      ⟨[m.id], ledger, 1, some m.id⟩

/-- Embeds the whole `options.run || options.force` branch of the
`bolt migrate` action (cli.ts lines 528-611): read the applied ids,
discover and sort the units, select those to run, and apply them in
sequence.  The `process.exit(0)` taken when nothing is pending (lines
568-571) coincides with the loop running zero times. -/
def runMigrations (force : Bool) (files : List Str) (ledger : List LedgerEntry)
    (upOk : Str → Bool) (now : Str) : RunResult :=
  runSeq upOk now (migrationsToRun force files (ledger.map (·.id))) ledger

/-- The id of a discovered migration file as the engine parses it. -/
def unitId (file : Str) : Str := fileId (fileBase file)

/-- The ids of the discovered migration units, in directory-scan order. -/
def discoveredIds (files : List Str) : List Str :=
  (files.filter (fun f => strEndsWith f ".ts".toList)).map unitId

theorem sanity_run_pending :
    runMigrations false
      ["migrations/20240101000000_a.ts".toList, "migrations/20230101000000_b.ts".toList]
      [⟨"20230101000000".toList, "b".toList, "t0".toList⟩] (fun _ => true) "t1".toList =
    ⟨["20240101000000".toList],
     [⟨"20230101000000".toList, "b".toList, "t0".toList⟩,
      ⟨"20240101000000".toList, "a".toList, "t1".toList⟩], 0, none⟩ := by decide

theorem sanity_run_failure :
    runMigrations false
      ["migrations/20240101000000_a.ts".toList, "migrations/20230101000000_b.ts".toList]
      [] (fun i => i ≠ "20230101000000".toList) "t1".toList =
    ⟨["20230101000000".toList], [], 1, some "20230101000000".toList⟩ := by decide

theorem sanity_run_force :
    runMigrations true
      ["migrations/20240101000000_a.ts".toList, "migrations/20230101000000_b.ts".toList]
      [⟨"20230101000000".toList, "b".toList, "t0".toList⟩] (fun _ => true) "t1".toList =
    ⟨["20230101000000".toList, "20240101000000".toList],
     [⟨"20230101000000".toList, "b".toList, "t0".toList⟩,
      ⟨"20240101000000".toList, "a".toList, "t1".toList⟩], 0, none⟩ := by decide

/-! ## Deployment server (cli.ts lines 713-1285) -/

/-- Embeds `join(dir, rel)` from `node:path` for the uses in this file
(the second component is either absolute like `/index.html` or a bare
filename like `privkey.pem`). -/
def joinPath (dir rel : Str) : Str :=
  if strStartsWith rel "/".toList then dir ++ rel else dir ++ "/".toList ++ rel

/-- One inbound HTTP request as the `fetch` handlers see it:
`new URL(req.url)` splits it into `pathname` and `searchParams`. -/
structure HttpRequest where
  path : Str
  query : List (Str × Str)
  method : Str
  headers : List (Str × Str)
  body : Str
deriving DecidableEq, Repr

/-- The request the proxy branch sends with `fetch(apiUrl, {method,
headers, body})` (cli.ts lines 1026-1039): `apiUrl` is
`new URL(path, 'http://localhost:' + apiPort)` with the inbound query
parameters appended in order. -/
structure BackendRequest where
  host : Str
  port : Nat
  path : Str
  query : List (Str × Str)
  method : Str
  headers : List (Str × Str)
  body : Str
deriving DecidableEq, Repr

/-- A backend reply as `fetch` resolves it. -/
structure BackendResponse where
  status : Nat
  statusText : Str
  headers : List (Str × Str)
  body : Str
deriving DecidableEq, Repr

/-- Body of a `Response` the handlers build: either literal text or a
file streamed with `Bun.file(path)`. -/
inductive ResponseBody where
  | text (s : Str)
  | file (path : Str)
deriving DecidableEq, Repr

/-- An outbound `Response`: `new Response(body, {status, statusText,
headers})`, with the constructor defaults status `200`, empty status
text and no explicit headers. -/
structure HttpResponse where
  status : Nat
  statusText : Str
  headers : List (Str × Str)
  body : ResponseBody
deriving DecidableEq, Repr

/-- The backend process: either a reply, or a thrown `fetch` error whose
message `msg` the handler catches (connection refused, timeout, ...). -/
abbrev Backend := BackendRequest → Except Str BackendResponse

/-- Static filesystem of the `_dist` bundle: `fileOf p = some contents`
iff `existsSync(p) && statSync(p).isFile()` and the regular file at `p`
has those contents; `none` otherwise. -/
abbrev StaticFs := Str → Option Str

/-- Embeds the `/api/` proxy branch shared verbatim by the three `fetch`
handlers (cli.ts lines 1024-1051, 1111-1138 and 1205-1232): forward the
request to `http://localhost:<apiPort>` at the same path and query, with
method, headers and body passed through, and relay the reply's body,
status, status text and headers; a thrown `fetch` error is caught and
turned into a 502 `"API server error: <message>"` response. -/
def proxyServe (apiPort : Nat) (backend : Backend) (req : HttpRequest) : HttpResponse :=
  match backend
      { host := "localhost".toList, port := apiPort, path := req.path, query := req.query,
        method := req.method, headers := req.headers, body := req.body } with
  | .ok r => { status := r.status, statusText := r.statusText, headers := r.headers,
               body := .text r.body }
  | .error msg =>
      { status := 502, statusText := [], headers := [],
        body := .text ("API server error: ".toList ++ msg) }

/-- Embeds the static/SPA branch shared verbatim by the three `fetch`
handlers (cli.ts lines 1053-1075, 1140-1162 and 1234-1256): substitute
`/index.html` for `/` and for extensionless paths not ending in `/`;
serve the resolved file if it exists as a regular file; otherwise serve
`/index.html` for any extensionless path; otherwise 404.  `Bun.file`
responses carry the default status 200. -/
def staticServe (distDir : Str) (fileOf : StaticFs) (req : HttpRequest) : HttpResponse :=
  let filePath :=
    if req.path = "/".toList ||
        (!req.path.contains '.' && !strEndsWith req.path "/".toList) then
      "/index.html".toList
    else req.path
  let fullPath := joinPath distDir filePath
  match fileOf fullPath with
  | some _ => { status := 200, statusText := [], headers := [], body := .file fullPath }
  | none =>
    if !req.path.contains '.' then
      { status := 200, statusText := [], headers := [],
        body := .file (joinPath distDir "/index.html".toList) }
    else
      { status := 404, statusText := [], headers := [], body := .text "Not Found".toList }

/-- Embeds one `fetch` handler (all three are identical, cli.ts lines
1019-1076, 1106-1163 and 1200-1257): requests whose path starts with
`/api/` take the proxy branch, all others the static/SPA branch. -/
def serveFetch (apiPort : Nat) (distDir : Str) (backend : Backend) (fileOf : StaticFs)
    (req : HttpRequest) : HttpResponse :=
  if strStartsWith req.path "/api/".toList then proxyServe apiPort backend req
  else staticServe distDir fileOf req

/-- A sequence of requests handled by one listener: `Bun.serve` invokes
the `fetch` handler once per request, each independently. -/
def serveAll (apiPort : Nat) (distDir : Str) (backend : Backend) (fileOf : StaticFs)
    (reqs : List HttpRequest) : List HttpResponse :=
  reqs.map (serveFetch apiPort distDir backend fileOf)

/-! ## Deploy startup: SSL gate and listener decision tree -/

/-- One network listener opened with `Bun.serve`. -/
structure Listener where
  port : Nat
  tls : Bool
  redirectOnly : Bool
deriving DecidableEq, Repr

/-- Outcome of the domain-deployment startup: either `process.exit(code)`
taken before any listener was opened, or a running set of listeners. -/
inductive DeployOutcome where
  | exited (code : Nat)
  | running (listeners : List Listener)
deriving DecidableEq, Repr

/-- Embeds the SSL-relevant slice of the `deploy` action for a domain
deployment (cli.ts lines 874-892 and 1086-1261), with the intermediate
build/copy steps assumed successful.  With a configured `sslPath` (from
`options.sslPath` or the saved config), the existence of the directory
and of `privkey.pem` and `fullchain.pem` inside it is checked and any
failure is `process.exit(1)` before any server is started; if the checks
pass, the HTTPS listener on 443 plus the 301-redirect listener on 80 are
started, unless reading the files or starting TLS throws
(`readOk`/`tlsStartOk` false), in which case the code logs a warning and
falls back to the plaintext listener on 80; with no `sslPath` it starts
the plaintext listener on 80 directly. -/
def domainDeploy (fsExists : Str → Bool) (readOk : Str → Bool) (tlsStartOk : Bool)
    (sslPathOpt : Option Str) : DeployOutcome :=
  match sslPathOpt with
  | some p =>
    if !fsExists p then .exited 1
    else if !(fsExists (joinPath p "privkey.pem".toList) &&
              fsExists (joinPath p "fullchain.pem".toList)) then .exited 1
    else if readOk (joinPath p "privkey.pem".toList) &&
            readOk (joinPath p "fullchain.pem".toList) && tlsStartOk then
      .running [⟨443, true, false⟩, ⟨80, false, true⟩]
    else
      .running [⟨80, false, false⟩]
  | none => .running [⟨80, false, false⟩]

/-! ## Migration creation (cli.ts lines 450-481) -/

/-- Embeds `isoNow.replace(/[-:T.Z]/g, '')`: drop every `-`, `:`, `T`,
`.` and `Z` character. -/
def stripIsoChars (s : Str) : Str :=
  s.filter (fun c => !(c == '-' || c == ':' || c == 'T' || c == '.' || c == 'Z'))

/-- Embeds `new Date().toISOString().replace(/[-:T.Z]/g, '').slice(0, 14)`
(cli.ts line 452): for a genuine ISO-8601 UTC timestamp this keeps only
`YYYYMMDDHHmmss`, i.e. one-second resolution. -/
def timestampToken (isoNow : Str) : Str :=
  (stripIsoChars isoNow).take 14

/-- Whitespace as matched by the `/\s+/g` of cli.ts line 453, restricted
to the common ASCII whitespace characters. -/
def isWsChar (c : Char) : Bool :=
  c == ' ' || c == '\t' || c == '\n' || c == '\r'

/-- Helper for `slugify`: the flag records whether the previous character
was whitespace, so a whitespace run contributes a single underscore. -/
def slugCharsAux : Str → Bool → Str
  | [], _ => []
  | c :: rest, prevWs =>
    if isWsChar c then
      if prevWs then slugCharsAux rest true
      else '_' :: slugCharsAux rest true
    else c :: slugCharsAux rest false

/-- Embeds `name.replace(/\s+/g, '_')` (cli.ts line 453). -/
def slugify (name : Str) : Str :=
  slugCharsAux name false

/-- Embeds the `options.create` branch (cli.ts lines 451-481): the new
migration file's base name `<timestamp>_<slug>` and its full path
`<migrationsDir>/<base>.ts`. -/
def createMigration (migrationsDir : Str) (isoNow : Str) (name : Str) : Str × Str :=
  let timestamp := timestampToken isoNow
  let migrationName := timestamp ++ "_".toList ++ slugify name
  (migrationName, joinPath migrationsDir (migrationName ++ ".ts".toList))

/-- The engine-level id of a unit created by `createMigration`, i.e. what
`fileId` later parses back out of the generated filename. -/
def createdId (migrationsDir : Str) (isoNow : Str) (name : Str) : Str :=
  fileId (fileBase ((createMigration migrationsDir isoNow name).2))

theorem sanity_create_name :
    createMigration "migrations".toList "2025-03-04T05:06:07.123Z".toList "add users".toList =
    ("20250304050607_add_users".toList, "migrations/20250304050607_add_users.ts".toList) := by
  decide

theorem sanity_create_id :
    createdId "migrations".toList "2025-03-04T05:06:07.123Z".toList "add users".toList =
    "20250304050607".toList := by decide

theorem sanity_serve_bare_api :
    serveFetch 3000 "/dist".toList (fun _ => .error "refused".toList) (fun _ => none)
      ⟨"/api".toList, [], "GET".toList, [], []⟩ =
    ⟨200, [], [], .file "/dist/index.html".toList⟩ := by decide

theorem sanity_serve_proxy_error :
    serveFetch 3000 "/dist".toList (fun _ => .error "refused".toList) (fun _ => none)
      ⟨"/api/x".toList, [], "GET".toList, [], []⟩ =
    ⟨502, [], [], .text "API server error: refused".toList⟩ := by decide

/-! ## Helper lemmas for the migration engine -/

theorem contains_true_iff (l : List Str) (a : Str) : l.contains a = true ↔ a ∈ l := by
  simp [List.contains, List.elem_iff]

theorem contains_false_iff (l : List Str) (a : Str) : l.contains a = false ↔ a ∉ l := by
  rw [← Bool.not_eq_true, not_iff_not]
  exact contains_true_iff l a

theorem mem_parseMigrations {files ids : List Str} {m : MigrationRecord}
    (hm : m ∈ parseMigrations files ids) :
    m.id ∈ discoveredIds files ∧ m.applied = ids.contains m.id := by
  rw [parseMigrations, List.mem_insertionSort] at hm
  obtain ⟨f, hf, rfl⟩ := List.mem_map.mp hm
  refine ⟨?_, rfl⟩
  exact List.mem_map.mpr ⟨f, hf, rfl⟩

theorem records_ids_eq (files ids : List Str) :
    ((files.filter (fun f => strEndsWith f ".ts".toList)).map (parseRecord ids)).map (·.id) =
      discoveredIds files := by
  rw [List.map_map, discoveredIds]
  rfl

theorem parseMigrations_ids_perm (files ids : List Str) :
    ((parseMigrations files ids).map (·.id)).Perm (discoveredIds files) := by
  rw [← records_ids_eq files ids]
  exact (List.perm_insertionSort migLe _).map _

theorem toRun_ids_perm (files ids : List Str) :
    ((migrationsToRun false files ids).map (·.id)).Perm
      ((discoveredIds files).filter (fun i => !ids.contains i)) := by
  have h₁ : (migrationsToRun false files ids).Perm
      ((((files.filter (fun f => strEndsWith f ".ts".toList)).map (parseRecord ids))).filter
        (fun m => !m.applied)) := by
    simpa [migrationsToRun] using
      (List.perm_insertionSort migLe
        ((files.filter (fun f => strEndsWith f ".ts".toList)).map (parseRecord ids))).filter
        (fun m => !m.applied)
  refine (h₁.map _).trans ?_
  have h₂ : ((((files.filter (fun f => strEndsWith f ".ts".toList)).map (parseRecord ids))).filter
        (fun m => !m.applied)).map (fun m : MigrationRecord => m.id) =
      ((discoveredIds files).filter (fun i => !ids.contains i)) := by
    rw [List.filter_map, List.map_map, discoveredIds, List.filter_map]
    rfl
  rw [h₂]

theorem toRun_pending {files ids : List Str} {m : MigrationRecord}
    (hm : m ∈ migrationsToRun false files ids) : m.applied = false := by
  simp only [migrationsToRun, if_neg Bool.false_ne_true, List.mem_filter] at hm
  simpa using hm.2

theorem mem_migrationsToRun {force : Bool} {files ids : List Str} {m : MigrationRecord}
    (hm : m ∈ migrationsToRun force files ids) :
    m.id ∈ discoveredIds files ∧ m.applied = ids.contains m.id := by
  apply mem_parseMigrations
  rcases force with _ | _
  · simpa [migrationsToRun] using (List.mem_of_mem_filter hm)
  · simpa [migrationsToRun] using hm

theorem toRun_sorted (force : Bool) (files ids : List Str) :
    List.Sorted (· ≤ ·) ((migrationsToRun force files ids).map (·.id)) := by
  have hs : List.Sorted migLe (parseMigrations files ids) :=
    List.sorted_insertionSort migLe _
  have hs' : List.Sorted migLe (migrationsToRun force files ids) := by
    rcases force with _ | _
    · simpa [migrationsToRun] using hs.filter (fun m => !m.applied)
    · simpa [migrationsToRun] using hs
  exact List.pairwise_map.mpr (hs'.imp (fun h => h))

theorem runSeq_all_ok (upOk : Str → Bool) (now : Str) (l : List MigrationRecord)
    (ledger : List LedgerEntry) (h : ∀ m ∈ l, upOk m.id = true) :
    runSeq upOk now l ledger =
      ⟨l.map (·.id),
       ledger ++ (l.filter (fun m => !m.applied)).map (fun m => ⟨m.id, m.name, now⟩),
       0, none⟩ := by
  induction l generalizing ledger with
  | nil => simp [runSeq]
  | cons m rest ih =>
    have hm : upOk m.id = true := h m (List.mem_cons_self m rest)
    have hrest : ∀ x ∈ rest, upOk x.id = true := fun x hx => h x (List.mem_cons_of_mem m hx)
    by_cases hap : m.applied
    · simp [runSeq, hm, hap, ih _ hrest]
    · simp [runSeq, hm, hap, ih _ hrest]

theorem runSeq_fail_split (upOk : Str → Bool) (now : Str) (pre post : List MigrationRecord)
    (m : MigrationRecord) (ledger : List LedgerEntry)
    (hok : ∀ x ∈ pre, upOk x.id = true) (hfail : upOk m.id = false) :
    runSeq upOk now (pre ++ m :: post) ledger =
      ⟨pre.map (·.id) ++ [m.id],
       ledger ++ (pre.filter (fun x => !x.applied)).map (fun x => ⟨x.id, x.name, now⟩),
       1, some m.id⟩ := by
  induction pre generalizing ledger with
  | nil => simp [runSeq, hfail]
  | cons a pre ih =>
    have ha : upOk a.id = true := hok a (List.mem_cons_self a pre)
    have hpre : ∀ x ∈ pre, upOk x.id = true := fun x hx => hok x (List.mem_cons_of_mem a hx)
    by_cases hap : a.applied
    · simp [runSeq, ha, hap, ih _ hpre]
    · simp [runSeq, ha, hap, ih _ hpre]

theorem toRun_all_pending_filter (files ids : List Str) :
    (migrationsToRun false files ids).filter (fun m => !m.applied) =
      migrationsToRun false files ids :=
  List.filter_eq_self.mpr (fun m hm => by simp [toRun_pending hm])

theorem toRun_ids_nodup (files : List Str) (ledgerIds : List Str)
    (hids : (discoveredIds files).Nodup) :
    ((migrationsToRun false files ledgerIds).map (·.id)).Nodup :=
  (toRun_ids_perm files ledgerIds).symm.nodup (hids.filter _)

/-- Number of occurrences of an id in a list of ids ("the ledger contains
the id exactly once" is `countOcc id ids = 1`). -/
def countOcc (a : Str) : List Str → Nat
  | [] => 0
  | b :: l => (if b = a then 1 else 0) + countOcc a l

theorem countOcc_append (a : Str) (l₁ l₂ : List Str) :
    countOcc a (l₁ ++ l₂) = countOcc a l₁ + countOcc a l₂ := by
  induction l₁ with
  | nil => simp [countOcc]
  | cons b l ih => simp [countOcc, ih]; omega

theorem countOcc_eq_zero {a : Str} {l : List Str} (h : a ∉ l) : countOcc a l = 0 := by
  induction l with
  | nil => rfl
  | cons b l ih =>
    have hb : b ≠ a := fun hba => h (hba ▸ List.mem_cons_self b l)
    have hl : a ∉ l := fun hm => h (List.mem_cons_of_mem b hm)
    simp [countOcc, hb, ih hl]

theorem countOcc_eq_one {a : Str} {l : List Str} (hn : l.Nodup) (hm : a ∈ l) :
    countOcc a l = 1 := by
  induction l with
  | nil => cases hm
  | cons b l ih =>
    rcases List.mem_cons.mp hm with rfl | hm'
    · have : a ∉ l := (List.nodup_cons.mp hn).1
      simp [countOcc, countOcc_eq_zero this]
    · have hb : b ≠ a := by
        rintro rfl
        exact (List.nodup_cons.mp hn).1 hm'
      simp [countOcc, hb, ih (List.nodup_cons.mp hn).2 hm']

theorem countOcc_perm {l₁ l₂ : List Str} (h : l₁.Perm l₂) (a : Str) :
    countOcc a l₁ = countOcc a l₂ := by
  induction h with
  | nil => rfl
  | cons x _ ih => simp [countOcc, ih]
  | swap x y l => simp [countOcc]; omega
  | trans _ _ ih₁ ih₂ => omega

theorem count_final_ledger (files : List Str) (ledger : List LedgerEntry)
    (hids : (discoveredIds files).Nodup) (hledger : (ledger.map (·.id)).Nodup)
    (i : Str) (hi : i ∈ discoveredIds files) :
    countOcc i
        (ledger.map (·.id) ++ (migrationsToRun false files (ledger.map (·.id))).map (·.id)) =
      1 := by
  rw [countOcc_append, countOcc_perm (toRun_ids_perm files (ledger.map (·.id))) i]
  by_cases hmem : i ∈ ledger.map (·.id)
  · have h0 : i ∉ (discoveredIds files).filter (fun j => !(ledger.map (·.id)).contains j) := by
      intro hcontra
      have h2 := (List.mem_filter.mp hcontra).2
      rw [Bool.not_eq_true', contains_false_iff] at h2
      exact h2 hmem
    rw [countOcc_eq_one hledger hmem, countOcc_eq_zero h0]
  · have h2 : i ∈ (discoveredIds files).filter (fun j => !(ledger.map (·.id)).contains j) := by
      refine List.mem_filter.mpr ⟨hi, ?_⟩
      rw [Bool.not_eq_true', contains_false_iff]
      exact hmem
    rw [countOcc_eq_zero hmem, countOcc_eq_one (hids.filter _) h2]

theorem ledger_map_entry_id (toRun : List MigrationRecord) (now : Str) :
    (toRun.map (fun m => (⟨m.id, m.name, now⟩ : LedgerEntry))).map (·.id) =
      toRun.map (·.id) := by
  rw [List.map_map]
  rfl

/-- C1: for a set of discovered migration units with strictly increasing
ids, `bolt migrate --run` (without `--force`) applies exactly the units
whose ids are absent from the ledger, in strictly ascending id order,
exits with code 0, and afterwards the ledger contains every discovered id
exactly once. -/
theorem migrate_run_pending_exact (files : List Str) (ledger : List LedgerEntry)
    (upOk : Str → Bool) (now : Str)
    (hids : List.Sorted (· < ·) (discoveredIds files))
    (hledger : (ledger.map (·.id)).Nodup)
    (hup : ∀ i ∈ discoveredIds files, upOk i = true) :
    (runMigrations false files ledger upOk now).executed.Perm
        ((discoveredIds files).filter (fun i => !(ledger.map (·.id)).contains i)) ∧
    List.Sorted (· < ·) (runMigrations false files ledger upOk now).executed ∧
    (runMigrations false files ledger upOk now).exitCode = 0 ∧
    (runMigrations false files ledger upOk now).failedId = none ∧
    ∀ i ∈ discoveredIds files,
      countOcc i ((runMigrations false files ledger upOk now).ledger.map (·.id)) = 1 := by
  have hnodup : (discoveredIds files).Nodup := hids.imp (fun h => ne_of_lt h)
  have hall : ∀ m ∈ migrationsToRun false files (ledger.map (·.id)), upOk m.id = true :=
    fun m hm => hup m.id (mem_migrationsToRun hm).1
  have hrun : runMigrations false files ledger upOk now =
      ⟨(migrationsToRun false files (ledger.map (·.id))).map (·.id),
       ledger ++ (migrationsToRun false files (ledger.map (·.id))).map
         (fun m => ⟨m.id, m.name, now⟩),
       0, none⟩ := by
    rw [runMigrations, runSeq_all_ok _ _ _ _ hall, toRun_all_pending_filter]
  rw [hrun]
  refine ⟨toRun_ids_perm files (ledger.map (·.id)), ?_, rfl, rfl, ?_⟩
  · exact (toRun_sorted false files (ledger.map (·.id))).lt_of_le
      (toRun_ids_nodup files (ledger.map (·.id)) hnodup)
  · intro i hi
    rw [List.map_append, ledger_map_entry_id]
    exact count_final_ledger files ledger hnodup hledger i hi

theorem migrate_run_pending_exact_witness :
    (runMigrations false
        ["migrations/20230101000000_b.ts".toList, "migrations/20240101000000_a.ts".toList]
        [⟨"20230101000000".toList, "b".toList, "t0".toList⟩]
        (fun _ => true) "t1".toList).executed.Perm
      ((discoveredIds
          ["migrations/20230101000000_b.ts".toList,
           "migrations/20240101000000_a.ts".toList]).filter
        (fun i =>
          !(([⟨"20230101000000".toList, "b".toList, "t0".toList⟩] :
              List LedgerEntry).map (·.id)).contains i)) ∧
    List.Sorted (· < ·)
      (runMigrations false
        ["migrations/20230101000000_b.ts".toList, "migrations/20240101000000_a.ts".toList]
        [⟨"20230101000000".toList, "b".toList, "t0".toList⟩]
        (fun _ => true) "t1".toList).executed ∧
    (runMigrations false
        ["migrations/20230101000000_b.ts".toList, "migrations/20240101000000_a.ts".toList]
        [⟨"20230101000000".toList, "b".toList, "t0".toList⟩]
        (fun _ => true) "t1".toList).exitCode = 0 ∧
    (runMigrations false
        ["migrations/20230101000000_b.ts".toList, "migrations/20240101000000_a.ts".toList]
        [⟨"20230101000000".toList, "b".toList, "t0".toList⟩]
        (fun _ => true) "t1".toList).failedId = none ∧
    ∀ i ∈ discoveredIds
        ["migrations/20230101000000_b.ts".toList, "migrations/20240101000000_a.ts".toList],
      countOcc i
        ((runMigrations false
            ["migrations/20230101000000_b.ts".toList, "migrations/20240101000000_a.ts".toList]
            [⟨"20230101000000".toList, "b".toList, "t0".toList⟩]
            (fun _ => true) "t1".toList).ledger.map (·.id)) = 1 :=
  migrate_run_pending_exact
    ["migrations/20230101000000_b.ts".toList, "migrations/20240101000000_a.ts".toList]
    [⟨"20230101000000".toList, "b".toList, "t0".toList⟩]
    (fun _ => true) "t1".toList (by decide) (by decide) (by decide)

/-- C2: if the `up` of the unit at position `j` (0-based; the claim's
`k`-th unit is `j = k - 1`) of the pending batch fails, the units before
`j` are recorded applied, unit `j` gets no ledger entry, the units after
`j` are never attempted, and the run exits with code 1 naming the failing
unit's id. -/
theorem migrate_fail_fast (files : List Str) (ledger : List LedgerEntry)
    (upOk : Str → Bool) (now : Str) (j : Nat)
    (hids : (discoveredIds files).Nodup)
    (hj : j < (migrationsToRun false files (ledger.map (·.id))).length)
    (hok : ∀ x ∈ (migrationsToRun false files (ledger.map (·.id))).take j, upOk x.id = true)
    (hfail : upOk (migrationsToRun false files (ledger.map (·.id)))[j].id = false) :
    (runMigrations false files ledger upOk now).executed =
      ((migrationsToRun false files (ledger.map (·.id))).take (j+1)).map (·.id) ∧
    (runMigrations false files ledger upOk now).ledger =
      ledger ++ ((migrationsToRun false files (ledger.map (·.id))).take j).map
        (fun x => ⟨x.id, x.name, now⟩) ∧
    (∀ x ∈ (migrationsToRun false files (ledger.map (·.id))).take j,
      x.id ∈ (runMigrations false files ledger upOk now).ledger.map (·.id)) ∧
    countOcc ((migrationsToRun false files (ledger.map (·.id)))[j].id)
      ((runMigrations false files ledger upOk now).ledger.map (·.id)) = 0 ∧
    (runMigrations false files ledger upOk now).exitCode = 1 ∧
    (runMigrations false files ledger upOk now).failedId =
      some ((migrationsToRun false files (ledger.map (·.id)))[j].id) := by
  have hdec : migrationsToRun false files (ledger.map (·.id)) =
      (migrationsToRun false files (ledger.map (·.id))).take j ++
        (migrationsToRun false files (ledger.map (·.id)))[j] ::
        (migrationsToRun false files (ledger.map (·.id))).drop (j+1) := by
    conv_lhs =>
      rw [← List.take_append_drop j (migrationsToRun false files (ledger.map (·.id)))]
    rw [List.drop_eq_getElem_cons hj]
  have htake_filter : ((migrationsToRun false files (ledger.map (·.id))).take j).filter
      (fun x => !x.applied) = (migrationsToRun false files (ledger.map (·.id))).take j :=
    List.filter_eq_self.mpr (fun x hx => by
      simp [toRun_pending (List.mem_of_mem_take hx)])
  have hrun : runMigrations false files ledger upOk now =
      ⟨((migrationsToRun false files (ledger.map (·.id))).take j).map (·.id) ++
         [(migrationsToRun false files (ledger.map (·.id)))[j].id],
       ledger ++ ((migrationsToRun false files (ledger.map (·.id))).take j).map
         (fun x => ⟨x.id, x.name, now⟩),
       1, some ((migrationsToRun false files (ledger.map (·.id)))[j].id)⟩ := by
    rw [runMigrations]
    conv_lhs => rw [hdec]
    rw [runSeq_fail_split upOk now _ _ _ ledger hok hfail, htake_filter]
  have hj2 : j < ((migrationsToRun false files (ledger.map (·.id))).map (·.id)).length := by
    simpa using hj
  have hexec : ((migrationsToRun false files (ledger.map (·.id))).take j).map (·.id) ++
      [(migrationsToRun false files (ledger.map (·.id)))[j].id] =
      ((migrationsToRun false files (ledger.map (·.id))).take (j+1)).map (·.id) := by
    simp only [List.map_take]
    rw [List.take_succ, List.getElem?_eq_getElem hj2]
    simp [List.getElem_map]
  have hledmap : (runMigrations false files ledger upOk now).ledger.map (·.id) =
      ledger.map (·.id) ++
        ((migrationsToRun false files (ledger.map (·.id))).take j).map (·.id) := by
    rw [hrun]
    show (ledger ++ ((migrationsToRun false files (ledger.map (·.id))).take j).map
      (fun x => (⟨x.id, x.name, now⟩ : LedgerEntry))).map (·.id) = _
    rw [List.map_append, ledger_map_entry_id]
  refine ⟨by rw [hrun, ← hexec], by rw [hrun], ?_, ?_, by rw [hrun], by rw [hrun]⟩
  · intro x hx
    rw [hledmap]
    refine List.mem_append.mpr (Or.inr ?_)
    exact List.mem_map.mpr ⟨x, hx, rfl⟩
  · rw [hledmap, countOcc_append]
    have hmemj : (migrationsToRun false files (ledger.map (·.id)))[j] ∈
        migrationsToRun false files (ledger.map (·.id)) := List.getElem_mem hj
    have hpend : ((migrationsToRun false files (ledger.map (·.id)))[j]).applied = false :=
      toRun_pending hmemj
    have hnotled : (migrationsToRun false files (ledger.map (·.id)))[j].id ∉
        ledger.map (·.id) := by
      have h2 := (mem_migrationsToRun hmemj).2
      rw [hpend] at h2
      exact (contains_false_iff _ _).mp h2.symm
    have hnd : ((migrationsToRun false files (ledger.map (·.id))).map (·.id)).Nodup :=
      toRun_ids_nodup files (ledger.map (·.id)) hids
    have hj' : j < ((migrationsToRun false files (ledger.map (·.id))).map (·.id)).length := by
      simpa using hj
    have hgm : ((migrationsToRun false files (ledger.map (·.id))).map (·.id))[j] =
        (migrationsToRun false files (ledger.map (·.id)))[j].id :=
      List.getElem_map _
    have hmemdrop : ((migrationsToRun false files (ledger.map (·.id))).map (·.id))[j] ∈
        ((migrationsToRun false files (ledger.map (·.id))).map (·.id)).drop j := by
      rw [List.drop_eq_getElem_cons hj']
      exact List.mem_cons_self _ _
    have hnotin : (migrationsToRun false files (ledger.map (·.id)))[j].id ∉
        ((migrationsToRun false files (ledger.map (·.id))).take j).map (·.id) := by
      rw [List.map_take, ← hgm]
      intro hmem
      exact List.disjoint_take_drop hnd (le_refl j) hmem hmemdrop
    rw [countOcc_eq_zero hnotled, countOcc_eq_zero hnotin]

theorem migrate_fail_fast_witness :
    (runMigrations false
        ["migrations/20230101000000_a.ts".toList, "migrations/20240101000000_b.ts".toList]
        [] (fun i => !(i == "20240101000000".toList)) "t1".toList).executed =
      ["20230101000000".toList, "20240101000000".toList] ∧
    (runMigrations false
        ["migrations/20230101000000_a.ts".toList, "migrations/20240101000000_b.ts".toList]
        [] (fun i => !(i == "20240101000000".toList)) "t1".toList).ledger =
      [⟨"20230101000000".toList, "a".toList, "t1".toList⟩] ∧
    (runMigrations false
        ["migrations/20230101000000_a.ts".toList, "migrations/20240101000000_b.ts".toList]
        [] (fun i => !(i == "20240101000000".toList)) "t1".toList).exitCode = 1 ∧
    (runMigrations false
        ["migrations/20230101000000_a.ts".toList, "migrations/20240101000000_b.ts".toList]
        [] (fun i => !(i == "20240101000000".toList)) "t1".toList).failedId =
      some "20240101000000".toList := by
  have h := migrate_fail_fast
      ["migrations/20230101000000_a.ts".toList, "migrations/20240101000000_b.ts".toList]
      [] (fun i => !(i == "20240101000000".toList)) "t1".toList 1
      (by decide) (by decide) (by decide) (by decide)
  refine ⟨?_, ?_, ?_, ?_⟩
  · rw [h.1]; decide
  · rw [h.2.1]; decide
  · exact h.2.2.2.2.1
  · rw [h.2.2.2.2.2]; decide

/-- C3: running `bolt migrate --run` (without `--force`) twice in
succession, with no new units added in between, applies zero units the
second time, leaves the ledger table unchanged, and exits 0. -/
theorem migrate_idempotent (files : List Str) (ledger : List LedgerEntry)
    (upOk : Str → Bool) (now now₂ : Str)
    (hup : ∀ i ∈ discoveredIds files, upOk i = true) :
    (runMigrations false files (runMigrations false files ledger upOk now).ledger
        upOk now₂).executed = [] ∧
    (runMigrations false files (runMigrations false files ledger upOk now).ledger
        upOk now₂).ledger = (runMigrations false files ledger upOk now).ledger ∧
    (runMigrations false files (runMigrations false files ledger upOk now).ledger
        upOk now₂).exitCode = 0 := by
  have hall : ∀ m ∈ migrationsToRun false files (ledger.map (·.id)), upOk m.id = true :=
    fun m hm => hup m.id (mem_migrationsToRun hm).1
  have hrun1 : runMigrations false files ledger upOk now =
      ⟨(migrationsToRun false files (ledger.map (·.id))).map (·.id),
       ledger ++ (migrationsToRun false files (ledger.map (·.id))).map
         (fun m => ⟨m.id, m.name, now⟩), 0, none⟩ := by
    rw [runMigrations, runSeq_all_ok _ _ _ _ hall, toRun_all_pending_filter]
  have hmem2 : ∀ i ∈ discoveredIds files,
      i ∈ (runMigrations false files ledger upOk now).ledger.map (·.id) := by
    intro i hi
    rw [hrun1]
    show i ∈ (ledger ++ (migrationsToRun false files (ledger.map (·.id))).map
      (fun m => (⟨m.id, m.name, now⟩ : LedgerEntry))).map (·.id)
    rw [List.map_append, ledger_map_entry_id]
    by_cases hc : i ∈ ledger.map (·.id)
    · exact List.mem_append.mpr (Or.inl hc)
    · refine List.mem_append.mpr (Or.inr ?_)
      rw [(toRun_ids_perm files (ledger.map (·.id))).mem_iff]
      refine List.mem_filter.mpr ⟨hi, ?_⟩
      rw [Bool.not_eq_true', contains_false_iff]
      exact hc
  have h2 : migrationsToRun false files
      ((runMigrations false files ledger upOk now).ledger.map (·.id)) = [] := by
    have hnone : ∀ m ∈ parseMigrations files
        ((runMigrations false files ledger upOk now).ledger.map (·.id)),
        ¬((fun m : MigrationRecord => !m.applied) m = true) := by
      intro m hm
      obtain ⟨hid, happ⟩ := mem_parseMigrations hm
      have happl : m.applied = true := by
        rw [happ, contains_true_iff]
        exact hmem2 m.id hid
      simp [happl]
    simpa [migrationsToRun] using List.filter_eq_nil_iff.mpr hnone
  have hrun2 : runMigrations false files ((runMigrations false files ledger upOk now).ledger)
      upOk now₂ =
      ⟨[], (runMigrations false files ledger upOk now).ledger, 0, none⟩ := by
    show runSeq upOk now₂ (migrationsToRun false files
        ((runMigrations false files ledger upOk now).ledger.map (·.id)))
        ((runMigrations false files ledger upOk now).ledger) = _
    rw [h2]
    rfl
  exact ⟨by rw [hrun2], by rw [hrun2], by rw [hrun2]⟩

theorem migrate_idempotent_witness :
    (runMigrations false
        ["migrations/20230101000000_a.ts".toList, "migrations/20240101000000_b.ts".toList]
        (runMigrations false
          ["migrations/20230101000000_a.ts".toList, "migrations/20240101000000_b.ts".toList]
          [] (fun _ => true) "t1".toList).ledger
        (fun _ => true) "t2".toList).executed = [] ∧
    (runMigrations false
        ["migrations/20230101000000_a.ts".toList, "migrations/20240101000000_b.ts".toList]
        (runMigrations false
          ["migrations/20230101000000_a.ts".toList, "migrations/20240101000000_b.ts".toList]
          [] (fun _ => true) "t1".toList).ledger
        (fun _ => true) "t2".toList).ledger =
      (runMigrations false
          ["migrations/20230101000000_a.ts".toList, "migrations/20240101000000_b.ts".toList]
          [] (fun _ => true) "t1".toList).ledger ∧
    (runMigrations false
        ["migrations/20230101000000_a.ts".toList, "migrations/20240101000000_b.ts".toList]
        (runMigrations false
          ["migrations/20230101000000_a.ts".toList, "migrations/20240101000000_b.ts".toList]
          [] (fun _ => true) "t1".toList).ledger
        (fun _ => true) "t2".toList).exitCode = 0 :=
  migrate_idempotent
    ["migrations/20230101000000_a.ts".toList, "migrations/20240101000000_b.ts".toList]
    [] (fun _ => true) "t1".toList "t2".toList (by decide)

theorem migrationsToRun_true (files ids : List Str) :
    migrationsToRun true files ids = parseMigrations files ids := rfl

theorem migrationsToRun_false (files ids : List Str) :
    migrationsToRun false files ids =
      (parseMigrations files ids).filter (fun m => !m.applied) := rfl

/-- C4: with `--force`, the `up` of every discovered unit is re-executed
in ascending id order regardless of prior ledger state; already-applied
ids get no second row (the insert at cli.ts line 595 is skipped for
them), so the run exits 0, the prior ledger rows are untouched, only
rows for previously-unapplied discovered ids are appended, and
afterwards the ledger still contains each discovered id exactly once. -/
theorem migrate_force_all (files : List Str) (ledger : List LedgerEntry)
    (upOk : Str → Bool) (now : Str)
    (hids : List.Sorted (· < ·) (discoveredIds files))
    (hledger : (ledger.map (·.id)).Nodup)
    (hup : ∀ i ∈ discoveredIds files, upOk i = true) :
    (runMigrations true files ledger upOk now).executed.Perm (discoveredIds files) ∧
    List.Sorted (· < ·) (runMigrations true files ledger upOk now).executed ∧
    (runMigrations true files ledger upOk now).exitCode = 0 ∧
    (∃ added : List LedgerEntry,
      (runMigrations true files ledger upOk now).ledger = ledger ++ added ∧
      ∀ e ∈ added, e.id ∈ discoveredIds files ∧ e.id ∉ ledger.map (·.id)) ∧
    ∀ i ∈ discoveredIds files,
      countOcc i ((runMigrations true files ledger upOk now).ledger.map (·.id)) = 1 := by
  have hnodup : (discoveredIds files).Nodup := hids.imp (fun h => ne_of_lt h)
  have hall : ∀ m ∈ migrationsToRun true files (ledger.map (·.id)), upOk m.id = true :=
    fun m hm => hup m.id (mem_migrationsToRun hm).1
  have hfilter : (migrationsToRun true files (ledger.map (·.id))).filter
      (fun m => !m.applied) = migrationsToRun false files (ledger.map (·.id)) := by
    rw [migrationsToRun_true, migrationsToRun_false]
  have hrun : runMigrations true files ledger upOk now =
      ⟨(migrationsToRun true files (ledger.map (·.id))).map (·.id),
       ledger ++ (migrationsToRun false files (ledger.map (·.id))).map
         (fun m => ⟨m.id, m.name, now⟩),
       0, none⟩ := by
    rw [runMigrations, runSeq_all_ok _ _ _ _ hall, hfilter]
  rw [hrun]
  refine ⟨?_, ?_, rfl, ?_, ?_⟩
  · rw [migrationsToRun_true]
    exact parseMigrations_ids_perm files (ledger.map (·.id))
  · refine (toRun_sorted true files (ledger.map (·.id))).lt_of_le ?_
    rw [migrationsToRun_true]
    exact (parseMigrations_ids_perm files (ledger.map (·.id))).symm.nodup hnodup
  · refine ⟨(migrationsToRun false files (ledger.map (·.id))).map
      (fun m => ⟨m.id, m.name, now⟩), rfl, ?_⟩
    intro e he
    obtain ⟨m, hm, rfl⟩ := List.mem_map.mp he
    refine ⟨(mem_migrationsToRun hm).1, ?_⟩
    have h2 := (mem_migrationsToRun hm).2
    rw [toRun_pending hm] at h2
    exact (contains_false_iff _ _).mp h2.symm
  · intro i hi
    rw [List.map_append, ledger_map_entry_id]
    exact count_final_ledger files ledger hnodup hledger i hi

theorem migrate_force_all_witness :
    (runMigrations true
        ["migrations/20230101000000_b.ts".toList, "migrations/20240101000000_a.ts".toList]
        [⟨"20230101000000".toList, "b".toList, "t0".toList⟩]
        (fun _ => true) "t1".toList).executed.Perm
      (discoveredIds
        ["migrations/20230101000000_b.ts".toList, "migrations/20240101000000_a.ts".toList]) ∧
    List.Sorted (· < ·)
      (runMigrations true
        ["migrations/20230101000000_b.ts".toList, "migrations/20240101000000_a.ts".toList]
        [⟨"20230101000000".toList, "b".toList, "t0".toList⟩]
        (fun _ => true) "t1".toList).executed ∧
    (runMigrations true
        ["migrations/20230101000000_b.ts".toList, "migrations/20240101000000_a.ts".toList]
        [⟨"20230101000000".toList, "b".toList, "t0".toList⟩]
        (fun _ => true) "t1".toList).exitCode = 0 ∧
    (∃ added : List LedgerEntry,
      (runMigrations true
          ["migrations/20230101000000_b.ts".toList, "migrations/20240101000000_a.ts".toList]
          [⟨"20230101000000".toList, "b".toList, "t0".toList⟩]
          (fun _ => true) "t1".toList).ledger =
        [⟨"20230101000000".toList, "b".toList, "t0".toList⟩] ++ added ∧
      ∀ e ∈ added,
        e.id ∈ discoveredIds
            ["migrations/20230101000000_b.ts".toList,
             "migrations/20240101000000_a.ts".toList] ∧
        e.id ∉ ([⟨"20230101000000".toList, "b".toList, "t0".toList⟩] :
            List LedgerEntry).map (·.id)) ∧
    ∀ i ∈ discoveredIds
        ["migrations/20230101000000_b.ts".toList, "migrations/20240101000000_a.ts".toList],
      countOcc i
        ((runMigrations true
            ["migrations/20230101000000_b.ts".toList, "migrations/20240101000000_a.ts".toList]
            [⟨"20230101000000".toList, "b".toList, "t0".toList⟩]
            (fun _ => true) "t1".toList).ledger.map (·.id)) = 1 :=
  migrate_force_all
    ["migrations/20230101000000_b.ts".toList, "migrations/20240101000000_a.ts".toList]
    [⟨"20230101000000".toList, "b".toList, "t0".toList⟩]
    (fun _ => true) "t1".toList (by decide) (by decide) (by decide)

/-! ## Deployment server claims -/

/-- C5: a request whose path starts with `/api/` is forwarded to
`http://localhost:<apiPort>` at the same path with method, headers, body
and all query parameters preserved (the hypothesis `hb` pins the exact
request the backend receives), and the handler's response carries the
backend's status, status text, headers and body unchanged. -/
theorem proxy_forwards_verbatim (apiPort : Nat) (distDir : Str) (backend : Backend)
    (fileOf : StaticFs) (req : HttpRequest) (resp : BackendResponse)
    (hpre : strStartsWith req.path "/api/".toList = true)
    (hb : backend
        { host := "localhost".toList, port := apiPort, path := req.path,
          query := req.query, method := req.method, headers := req.headers,
          body := req.body } = .ok resp) :
    serveFetch apiPort distDir backend fileOf req =
      { status := resp.status, statusText := resp.statusText, headers := resp.headers,
        body := .text resp.body } := by
  rw [serveFetch, if_pos hpre, proxyServe, hb]

theorem proxy_forwards_verbatim_witness :
    serveFetch 3000 "/dist".toList
      (fun r => .ok ⟨200, "OK".toList, [("h".toList, "v".toList)], r.path ++ r.body⟩)
      (fun _ => none)
      ⟨"/api/widgets".toList, [("x".toList, "1".toList)], "GET".toList, [], "B".toList⟩ =
    ⟨200, "OK".toList, [("h".toList, "v".toList)],
      .text ("/api/widgets".toList ++ "B".toList)⟩ :=
  proxy_forwards_verbatim 3000 "/dist".toList
    (fun r => .ok ⟨200, "OK".toList, [("h".toList, "v".toList)], r.path ++ r.body⟩)
    (fun _ => none)
    ⟨"/api/widgets".toList, [("x".toList, "1".toList)], "GET".toList, [], "B".toList⟩
    ⟨200, "OK".toList, [("h".toList, "v".toList)], "/api/widgets".toList ++ "B".toList⟩
    (by decide) rfl

/-- C6: for a non-API request, the handler resolves `/` and extensionless
paths not ending in `/` to `/index.html`; if the resolved path is an
existing regular file under the static root it is served with status 200;
otherwise an original path with no `.` is answered with the `/index.html`
file and status 200, and an original path containing `.` is answered 404.

The ".lacking a file extension" of the spec is embedded the way the code
tests it: `!path.includes('.')`, i.e. no dot anywhere in the path. -/
theorem static_routing (apiPort : Nat) (distDir : Str) (backend : Backend)
    (fileOf : StaticFs) (req : HttpRequest)
    (hapi : strStartsWith req.path "/api/".toList = false) :
    (∀ c, fileOf (joinPath distDir
        (if req.path = "/".toList ||
            (!req.path.contains '.' && !strEndsWith req.path "/".toList) then
          "/index.html".toList
        else req.path)) = some c →
      serveFetch apiPort distDir backend fileOf req =
        ⟨200, [], [], .file (joinPath distDir
          (if req.path = "/".toList ||
              (!req.path.contains '.' && !strEndsWith req.path "/".toList) then
            "/index.html".toList
          else req.path))⟩) ∧
    (fileOf (joinPath distDir
        (if req.path = "/".toList ||
            (!req.path.contains '.' && !strEndsWith req.path "/".toList) then
          "/index.html".toList
        else req.path)) = none →
      req.path.contains '.' = false →
      serveFetch apiPort distDir backend fileOf req =
        ⟨200, [], [], .file (joinPath distDir "/index.html".toList)⟩) ∧
    (fileOf (joinPath distDir
        (if req.path = "/".toList ||
            (!req.path.contains '.' && !strEndsWith req.path "/".toList) then
          "/index.html".toList
        else req.path)) = none →
      req.path.contains '.' = true →
      serveFetch apiPort distDir backend fileOf req =
        ⟨404, [], [], .text "Not Found".toList⟩) := by
  refine ⟨?_, ?_, ?_⟩
  · intro c hc
    rw [serveFetch, if_neg (by rw [hapi]; simp), staticServe]
    simp only [hc]
  · intro hc hdot
    rw [serveFetch, if_neg (by rw [hapi]; simp), staticServe]
    simp only [hc]
    simp only [hdot]
    rfl
  · intro hc hdot
    rw [serveFetch, if_neg (by rw [hapi]; simp), staticServe]
    simp only [hc]
    simp only [hdot]
    rfl

theorem static_routing_witness :
    serveFetch 3000 "/dist".toList (fun _ => .error "down".toList)
      (fun p => if p = "/dist/index.html".toList then some "<html>".toList else none)
      ⟨"/dashboard".toList, [], "GET".toList, [], []⟩ =
      ⟨200, [], [], .file "/dist/index.html".toList⟩ ∧
    serveFetch 3000 "/dist".toList (fun _ => .error "down".toList)
      (fun p => if p = "/dist/index.html".toList then some "<html>".toList else none)
      ⟨"/missing.png".toList, [], "GET".toList, [], []⟩ =
      ⟨404, [], [], .text "Not Found".toList⟩ := by
  constructor
  · exact (static_routing 3000 "/dist".toList (fun _ => .error "down".toList)
      (fun p => if p = "/dist/index.html".toList then some "<html>".toList else none)
      ⟨"/dashboard".toList, [], "GET".toList, [], []⟩ (by decide)).1
      "<html>".toList (by decide)
  · exact (static_routing 3000 "/dist".toList (fun _ => .error "down".toList)
      (fun p => if p = "/dist/index.html".toList then some "<html>".toList else none)
      ⟨"/missing.png".toList, [], "GET".toList, [], []⟩ (by decide)).2.2
      (by decide) (by decide)

/-- C7: when forwarding an API-prefixed request fails, the handler
returns a 502 response carrying the failure reason, and the listener
keeps serving: every other request in a batch is answered exactly as it
would be on its own (the handler is a total function, so a per-request
proxy error never terminates processing). -/
theorem proxy_error_502_keeps_serving (apiPort : Nat) (distDir : Str) (backend : Backend)
    (fileOf : StaticFs) (req : HttpRequest) (msg : Str)
    (hpre : strStartsWith req.path "/api/".toList = true)
    (hb : backend
        { host := "localhost".toList, port := apiPort, path := req.path,
          query := req.query, method := req.method, headers := req.headers,
          body := req.body } = .error msg) :
    serveFetch apiPort distDir backend fileOf req =
      ⟨502, [], [], .text ("API server error: ".toList ++ msg)⟩ ∧
    ∀ before after : List HttpRequest,
      serveAll apiPort distDir backend fileOf (before ++ req :: after) =
        serveAll apiPort distDir backend fileOf before ++
          serveFetch apiPort distDir backend fileOf req ::
            serveAll apiPort distDir backend fileOf after := by
  constructor
  · rw [serveFetch, if_pos hpre, proxyServe, hb]
  · intro before after
    simp [serveAll]

theorem proxy_error_502_keeps_serving_witness :
    serveFetch 3000 "/dist".toList (fun _ => .error "connection refused".toList)
      (fun _ => none) ⟨"/api/widgets".toList, [], "GET".toList, [], []⟩ =
      ⟨502, [], [], .text "API server error: connection refused".toList⟩ ∧
    serveAll 3000 "/dist".toList (fun _ => .error "connection refused".toList)
      (fun _ => none)
      ([⟨"/a.txt".toList, [], "GET".toList, [], []⟩] ++
        ⟨"/api/widgets".toList, [], "GET".toList, [], []⟩ ::
          [⟨"/b.txt".toList, [], "GET".toList, [], []⟩]) =
      serveAll 3000 "/dist".toList (fun _ => .error "connection refused".toList)
        (fun _ => none) [⟨"/a.txt".toList, [], "GET".toList, [], []⟩] ++
        serveFetch 3000 "/dist".toList (fun _ => .error "connection refused".toList)
          (fun _ => none) ⟨"/api/widgets".toList, [], "GET".toList, [], []⟩ ::
          serveAll 3000 "/dist".toList (fun _ => .error "connection refused".toList)
            (fun _ => none) [⟨"/b.txt".toList, [], "GET".toList, [], []⟩] := by
  have h := proxy_error_502_keeps_serving 3000 "/dist".toList
    (fun _ => .error "connection refused".toList) (fun _ => none)
    ⟨"/api/widgets".toList, [], "GET".toList, [], []⟩ "connection refused".toList
    (by decide) rfl
  exact ⟨h.1, h.2 [⟨"/a.txt".toList, [], "GET".toList, [], []⟩]
    [⟨"/b.txt".toList, [], "GET".toList, [], []⟩]⟩

/-- C8: with a certificate path configured, if either `privkey.pem` or
`fullchain.pem` is missing under it, domain-deployment startup exits with
code 1 before any listener is opened; there is no fallback in this case
(the plaintext fallback exists only for failures after both files were
found to exist). -/
theorem ssl_missing_files_fatal (fsExists readOk : Str → Bool) (tlsStartOk : Bool) (p : Str)
    (h : fsExists (joinPath p "privkey.pem".toList) = false ∨
         fsExists (joinPath p "fullchain.pem".toList) = false) :
    domainDeploy fsExists readOk tlsStartOk (some p) = .exited 1 := by
  rw [domainDeploy]
  rcases h with h | h <;> by_cases hp : fsExists p <;> simp at h ⊢ <;> simp [hp, h]

theorem ssl_missing_files_fatal_witness :
    domainDeploy (fun q => q == "/etc/ssl/argon".toList ||
        q == "/etc/ssl/argon/fullchain.pem".toList)
      (fun _ => true) true (some "/etc/ssl/argon".toList) = .exited 1 :=
  ssl_missing_files_fatal
    (fun q => q == "/etc/ssl/argon".toList || q == "/etc/ssl/argon/fullchain.pem".toList)
    (fun _ => true) true "/etc/ssl/argon".toList (Or.inl (by decide))

/-- C10: in every deployment mode the three `fetch` handlers share the
same routing test `path.startsWith('/api/')`, embedded once as
`serveFetch`.  A request is answered by the proxy branch only when that
test holds: when it fails the response is the static/SPA branch's and is
independent of the backend, and when it holds the response is independent
of the static filesystem.  The bare path `/api` and the extended path
`/apifoo` fail the test. -/
theorem api_routing_exact (apiPort : Nat) (distDir : Str) :
    (∀ (b₁ b₂ : Backend) (fileOf : StaticFs) (req : HttpRequest),
      strStartsWith req.path "/api/".toList = false →
      serveFetch apiPort distDir b₁ fileOf req = staticServe distDir fileOf req ∧
      serveFetch apiPort distDir b₁ fileOf req = serveFetch apiPort distDir b₂ fileOf req) ∧
    (∀ (backend : Backend) (f₁ f₂ : StaticFs) (req : HttpRequest),
      strStartsWith req.path "/api/".toList = true →
      serveFetch apiPort distDir backend f₁ req = serveFetch apiPort distDir backend f₂ req) ∧
    strStartsWith "/api".toList "/api/".toList = false ∧
    strStartsWith "/apifoo".toList "/api/".toList = false := by
  refine ⟨?_, ?_, by decide, by decide⟩
  · intro b₁ b₂ fileOf req hapi
    constructor <;> rw [serveFetch, if_neg (by rw [hapi]; simp)]
    rw [serveFetch, if_neg (by rw [hapi]; simp)]
  · intro backend f₁ f₂ req hapi
    rw [serveFetch, if_pos hapi, serveFetch, if_pos hapi]

theorem api_routing_exact_witness :
    serveFetch 3000 "/dist".toList (fun _ => .error "down".toList) (fun _ => none)
      ⟨"/api".toList, [], "GET".toList, [], []⟩ =
    staticServe "/dist".toList (fun _ => none) ⟨"/api".toList, [], "GET".toList, [], []⟩ ∧
    serveFetch 3000 "/dist".toList (fun _ => .error "down".toList) (fun _ => none)
      ⟨"/apifoo".toList, [], "GET".toList, [], []⟩ =
    staticServe "/dist".toList (fun _ => none) ⟨"/apifoo".toList, [], "GET".toList, [], []⟩ :=
  ⟨((api_routing_exact 3000 "/dist".toList).1 (fun _ => .error "down".toList)
      (fun _ => .ok ⟨200, [], [], []⟩) (fun _ => none)
      ⟨"/api".toList, [], "GET".toList, [], []⟩ (by decide)).1,
   ((api_routing_exact 3000 "/dist".toList).1 (fun _ => .error "down".toList)
      (fun _ => .ok ⟨200, [], [], []⟩) (fun _ => none)
      ⟨"/apifoo".toList, [], "GET".toList, [], []⟩ (by decide)).1⟩

/-- C9 counterexample: the generated timestamp token is truncated to
seconds, so two units created at distinct instants inside the same
one-second window receive the same engine id (even with different
names), and with equal names even the same file path — refuting "for
every pair of units created within the same clock-resolution window the
generated ids (and file paths) do not collide". -/
theorem create_same_second_collision :
    "2025-03-04T05:06:07.123Z".toList ≠ "2025-03-04T05:06:07.987Z".toList ∧
    createdId "migrations".toList "2025-03-04T05:06:07.123Z".toList "alpha".toList =
      createdId "migrations".toList "2025-03-04T05:06:07.987Z".toList "beta".toList ∧
    (createMigration "migrations".toList "2025-03-04T05:06:07.123Z".toList "alpha".toList).2 =
      (createMigration "migrations".toList "2025-03-04T05:06:07.987Z".toList
        "alpha".toList).2 := by
  decide

/-- C9 amended: `create(name)` generates the migration file base name as
`<timestamp token>_<slug>` (the token is the ISO instant stripped of
`-`, `:`, `T`, `.`, `Z` and truncated to 14 characters, i.e. one-second
resolution; the slug replaces whitespace runs with `_`) and the path
`<migrationsDir>/<base>.ts`; base names are unique only across distinct
timestamp tokens: two creations whose tokens differ (in particular,
creations in distinct seconds) get distinct base names, whatever the
names. -/
theorem create_id_format (dir isoNow name iso₂ name₂ : Str)
    (hlen : (timestampToken isoNow).length = (timestampToken iso₂).length)
    (hne : timestampToken isoNow ≠ timestampToken iso₂) :
    (createMigration dir isoNow name).1 =
      timestampToken isoNow ++ "_".toList ++ slugify name ∧
    (createMigration dir isoNow name).2 =
      joinPath dir ((createMigration dir isoNow name).1 ++ ".ts".toList) ∧
    (createMigration dir isoNow name).1 ≠ (createMigration dir iso₂ name₂).1 := by
  refine ⟨rfl, rfl, ?_⟩
  intro heq
  apply hne
  have h : timestampToken isoNow ++ "_".toList ++ slugify name =
      timestampToken iso₂ ++ "_".toList ++ slugify name₂ := heq
  rw [List.append_assoc, List.append_assoc] at h
  exact (List.append_inj h hlen).1

theorem create_id_format_witness :
    (createMigration "migrations".toList "2025-03-04T05:06:07.123Z".toList
        "add users".toList).1 =
      timestampToken "2025-03-04T05:06:07.123Z".toList ++ "_".toList ++
        slugify "add users".toList ∧
    (createMigration "migrations".toList "2025-03-04T05:06:07.123Z".toList
        "add users".toList).2 =
      joinPath "migrations".toList
        ((createMigration "migrations".toList "2025-03-04T05:06:07.123Z".toList
          "add users".toList).1 ++ ".ts".toList) ∧
    (createMigration "migrations".toList "2025-03-04T05:06:07.123Z".toList
        "add users".toList).1 ≠
      (createMigration "migrations".toList "2025-03-04T05:06:08.000Z".toList
        "add users".toList).1 :=
  create_id_format "migrations".toList "2025-03-04T05:06:07.123Z".toList
    "add users".toList "2025-03-04T05:06:08.000Z".toList "add users".toList
    (by decide) (by decide)
